import Mathlib

/-!
Shallow embedding of the `platform-uuid-spoof` dylib core (src/src/lib.rs).

The program hooks the macOS function `IORegistryEntryCreateCFProperty`:
at load time `init` asks fishhook to rebind the symbol to
`replaced_IORegistryEntryCreateCFProperty` and captures the original
address; the replacement answers calls whose key converts to the exact
string "IOPlatformUUID" with a cached, reference-counted CoreFoundation
string holding a fixed spoofed UUID, and delegates every other call to
the captured original.

CoreFoundation objects are modelled as a heap of reference-counted
string cells indexed by natural numbers; `CFRetain`, `CFRelease` and
`CFStringCreateWithCString` become operations on that heap.  The
semantics of the external CF functions follows their documented
contracts: `CFStringGetCString` succeeds exactly when the string's
UTF-8 form plus the terminating NUL fits in the supplied buffer, and
`CStr::from_ptr` reads the written bytes up to the first NUL.
-/

set_option maxRecDepth 10000

namespace UuidSpoof

/-- The target key constant `IO_PLATFORM_UUID_KEY_STR` from lib.rs line 18. -/
def IO_PLATFORM_UUID_KEY_STR : String := "IOPlatformUUID"

/-- The spoofed payload constant `SPOOFED_UUID_STR` from lib.rs line 21. -/
def SPOOFED_UUID_STR : String := "DEADBEEF-DEAD-BEEF-DEAD-BEEFDEADBEEF"

/-- A live CoreFoundation string cell: its text content and its current
reference count. -/
structure CFObj where
  content : String
  rc : Nat
deriving Repr, DecidableEq

/-- The modelled CF heap: a list of cells indexed by handle; a `none`
slot is an object that has been deallocated (its reference count
reached zero).  Allocation appends, so `length` counts every
construction that ever happened. -/
abbrev Heap : Type := List (Option CFObj)

/-- CFStringCreateWithCString: allocate a fresh string cell with
reference count 1 (the +1 "create" reference) and return its handle. -/
def Heap.alloc (h : Heap) (s : String) : Heap × Nat :=
  (h ++ [some ⟨s, 1⟩], h.length)

/-- CFRetain: increment the reference count of a live cell. -/
def Heap.retain (h : Heap) (i : Nat) : Heap :=
  match h[i]? with
  | some (some o) => List.set h i (some ⟨o.content, o.rc + 1⟩)
  | _ => h

/-- CFRelease: decrement the reference count of a live cell,
deallocating it when the count reaches zero. -/
def Heap.release (h : Heap) (i : Nat) : Heap :=
  match h[i]? with
  | some (some o) =>
      if o.rc ≤ 1 then List.set h i none
      else List.set h i (some ⟨o.content, o.rc - 1⟩)
  | _ => h

/-- The process-wide mutable state of the subsystem: the CF heap, the
`SPOOFED_UUID_CFSTRING` cache slot (lib.rs line 74), and the captured
original function pointer `ORIGINAL_IOREGISTRYENTRYCREATECFPROPERTY`
(lib.rs line 61), an abstract address modelled as a `Nat`. -/
structure SpooferState where
  heap : Heap
  cache : Option Nat
  original : Option Nat
deriving DecidableEq

/-- The state at process start: empty heap, empty cache, no captured
original. -/
def initialState : SpooferState := ⟨[], none, none⟩

/-- The value cache `get_spoofed_uuid_cfstring` (lib.rs 76-98), run
under the `SPOOFED_UUID_CFSTRING` mutex.  If the cache already holds
the canonical string, CFRetain it and return its handle; otherwise
create it from `SPOOFED_UUID_STR` (a +1 reference), store that +1
reference in the cache, and CFRetain once more for the caller. -/
def get_spoofed_uuid_cfstring (st : SpooferState) : SpooferState × Nat :=
  match st.cache with
  | some i => ({ st with heap := st.heap.retain i }, i)
  | none =>
      let p := st.heap.alloc SPOOFED_UUID_STR
      ({ st with heap := p.1.retain p.2, cache := some p.2 }, p.2)

/-- A CFString argument as seen by the dispatcher.  `utf8` is the
string's text when it has a UTF-8 representation, `none` when the
encoding conversion cannot succeed at any buffer size. -/
structure CFStringV where
  utf8 : Option String
deriving DecidableEq

/-- CFStringGetCString with a buffer of `bufferSize` bytes: succeeds
and yields the UTF-8 text exactly when the text plus its terminating
NUL fits in the buffer (documented CF contract; lib.rs 117-124 passes
a 256-byte buffer). -/
def cfStringGetCString (k : CFStringV) (bufferSize : Nat) : Option String :=
  match k.utf8 with
  | some s => if s.utf8ByteSize + 1 ≤ bufferSize then some s else none
  | none => none

/-- CStr::from_ptr followed by to_string_lossy on the filled buffer
(lib.rs 127): the bytes up to the first NUL, i.e. the characters of
the written text before the first U+0000. -/
def cStrExtract (s : String) : String :=
  String.mk (s.data.takeWhile (fun c => c != Char.ofNat 0))

/-- The values the intercepted function can return: the CF null
pointer, a handle into the modelled heap, or an opaque value produced
by the original implementation. -/
inductive CFTypeRefV where
  | null
  | handle (i : Nat)
  | external (v : Nat)
deriving DecidableEq, Repr

/-- The behaviour of the captured original function, abstract: a pure
map from the four arguments (entry, key, allocator, options) to a
returned value. -/
def OrigBeh : Type := Nat → Option CFStringV → Nat → Nat → CFTypeRefV

/-- Outcome of one dispatcher invocation: the new process state, the
returned value, and whether the captured original was invoked. -/
structure DispatchResult where
  state : SpooferState
  ret : CFTypeRefV
  calledOriginal : Bool
deriving DecidableEq

/-- The dispatcher `replaced_IORegistryEntryCreateCFProperty`
(lib.rs 102-136).  `key = none` models a null key pointer.  A `none`
result models the panic of unwrapping the absent original pointer;
otherwise the result records the new state, the returned value and
whether the original ran.  Delegation passes all four arguments
through unmodified and leaves the modelled state untouched. -/
def replaced_IORegistryEntryCreateCFProperty (origBeh : OrigBeh)
    (st : SpooferState) (entry : Nat) (key : Option CFStringV)
    (allocator : Nat) (options : Nat) : Option DispatchResult :=
  match key with
  | none =>
      match st.original with
      | none => none
      | some _ => some ⟨st, origBeh entry none allocator options, true⟩
  | some k =>
      match cfStringGetCString k 256 with
      | some s =>
          if cStrExtract s = IO_PLATFORM_UUID_KEY_STR then
            let p := get_spoofed_uuid_cfstring st
            some ⟨p.1, CFTypeRefV.handle p.2, false⟩
          else
            match st.original with
            | none => none
            | some _ => some ⟨st, origBeh entry (some k) allocator options, true⟩
      | none =>
          match st.original with
          | none => none
          | some _ => some ⟨st, origBeh entry (some k) allocator options, true⟩

/-- What the external `rebind_symbols` call reported: its integer
return code and the pointer it wrote through the `replaced` out
parameter (`none` models a null pointer). -/
structure RebindOutcome where
  code : Int
  replaced : Option Nat
deriving DecidableEq

/-- What the load-time constructor did: the list of rebinding requests
it issued (symbol name and replacement function name), the captured
original address it stored, and the diagnostic lines it printed to
stderr. -/
structure InitResult where
  calls : List (String × String)
  original : Option Nat
  diagnostics : List String
deriving DecidableEq

/-- The load-time constructor `init` (lib.rs 139-166): build one
rebinding entry for "IORegistryEntryCreateCFProperty" with the
dispatcher as replacement, call `rebind_symbols` once, and on a zero
return code with a non-null out pointer store it as the captured
original; on a zero return code with a null out pointer, or on a
non-zero return code, print one error line and leave the original
empty. -/
def init (r : RebindOutcome) : InitResult :=
  let call := ("IORegistryEntryCreateCFProperty",
               "replaced_IORegistryEntryCreateCFProperty")
  if r.code = 0 then
    match r.replaced with
    | none =>
        ⟨[call], none,
         ["[uuid_spoofer] Error: fishhook succeeded but did not return original function pointer."]⟩
    | some p => ⟨[call], some p, []⟩
  else
    ⟨[call], none,
     ["[uuid_spoofer] Error: Failed to hook IORegistryEntryCreateCFProperty using fishhook."]⟩

/-- Modelled from the spec: whether the target symbol ends up patched
to the dispatcher.  The rebinding primitive itself
(vendor/fishhook/fishhook.c, compiled by build.rs) is not under src/;
per the spec's Rebinder contract the patch and the capture of the
original address are "a single atomic operation", so the symbol is
patched exactly when the rebind call both reported success and
supplied the original address. -/
def rebindPatched (r : RebindOutcome) : Bool :=
  decide (r.code = 0) && r.replaced.isSome

/-- Modelled from the spec: how a process-wide call to the target
symbol is routed after initialization ran with rebind outcome `r`.
If the symbol was patched the call reaches the dispatcher; otherwise
it still reaches the original implementation directly (fail-open). -/
def processCall (r : RebindOutcome) (origBeh : OrigBeh) (st : SpooferState)
    (entry : Nat) (key : Option CFStringV) (allocator : Nat) (options : Nat) :
    Option DispatchResult :=
  if rebindPatched r then
    replaced_IORegistryEntryCreateCFProperty origBeh st entry key allocator options
  else
    some ⟨st, origBeh entry key allocator options, true⟩

/-- The process state right after `init` ran with rebind outcome `r`. -/
def stateAfterInit (r : RebindOutcome) : SpooferState :=
  ⟨[], none, (init r).original⟩

/-- Call the value cache `n` times in sequence, collecting the returned
handles in order. -/
def acquireN : Nat → SpooferState → SpooferState × List Nat
  | 0, st => (st, [])
  | n + 1, st =>
      let p := get_spoofed_uuid_cfstring st
      let q := acquireN n p.1
      (q.1, p.2 :: q.2)

/-- CFRelease every handle in the list, in order. -/
def releaseAll (st : SpooferState) (hs : List Nat) : SpooferState :=
  hs.foldl (fun s i => { s with heap := s.heap.release i }) st

/-- The cache invariant: whenever the `SPOOFED_UUID_CFSTRING` slot
holds a handle, that handle points at a live cell whose content is the
spoofed payload. -/
def CacheInv (st : SpooferState) : Prop :=
  ∀ i, st.cache = some i →
    ∃ o : CFObj, st.heap[i]? = some (some o) ∧ o.content = SPOOFED_UUID_STR

/-- The canonical-form state reached from `initialState` by value-cache
activity: one cell holding the spoofed payload at handle 0 with
reference count `r`, the cache pointing at it. -/
def canonState (orig : Option Nat) (r : Nat) : SpooferState :=
  ⟨[some ⟨SPOOFED_UUID_STR, r⟩], some 0, orig⟩

/-- Program points of one thread running `get_spoofed_uuid_cfstring`:
not yet entered; holding the `SPOOFED_UUID_CFSTRING` mutex before the
cache check; holding the mutex having seen an empty cache, about to
construct; finished. -/
inductive TPC where
  | start
  | locked
  | willConstruct
  | done
deriving DecidableEq, Repr

/-- Shared-memory state for `T` threads concurrently running
`get_spoofed_uuid_cfstring` for the first time: who holds the mutex,
the cache slot, the CF heap (whose length counts every construction
that ever happened), and each thread's program point. -/
structure ConcState where
  lock : Option Nat
  cache : Option Nat
  heap : Heap
  pcs : Nat → TPC

/-- Interleaving semantics of `T` threads in
`get_spoofed_uuid_cfstring` (lib.rs 76-98).  Taking the mutex requires
it to be free; the cache check and the construct-and-store run as
separate steps of the mutex holder, mirroring lines 78 and 84-94 of
the source; finishing releases the mutex.  The handle returned by a
hit is retained, and a construction allocates the payload and retains
it once more for the caller. -/
inductive ConcStep (T : Nat) : ConcState → ConcState → Prop where
  | takeLock (s : ConcState) (i : Nat) (hi : i < T) (hpc : s.pcs i = TPC.start)
      (hl : s.lock = none) :
      ConcStep T s ⟨some i, s.cache, s.heap, Function.update s.pcs i TPC.locked⟩
  | checkHit (s : ConcState) (i j : Nat) (hi : i < T) (hpc : s.pcs i = TPC.locked)
      (hc : s.cache = some j) :
      ConcStep T s ⟨none, s.cache, s.heap.retain j, Function.update s.pcs i TPC.done⟩
  | checkMiss (s : ConcState) (i : Nat) (hi : i < T) (hpc : s.pcs i = TPC.locked)
      (hc : s.cache = none) :
      ConcStep T s ⟨s.lock, s.cache, s.heap, Function.update s.pcs i TPC.willConstruct⟩
  | construct (s : ConcState) (i : Nat) (hi : i < T) (hpc : s.pcs i = TPC.willConstruct) :
      ConcStep T s
        ⟨none, some (s.heap.alloc SPOOFED_UUID_STR).2,
         ((s.heap.alloc SPOOFED_UUID_STR).1).retain (s.heap.alloc SPOOFED_UUID_STR).2,
         Function.update s.pcs i TPC.done⟩

/-- The concurrent initial state: mutex free, empty cache, empty heap,
every thread at its start. -/
def concInit : ConcState := ⟨none, none, [], fun _ => TPC.start⟩

/-- Inductive invariant of the concurrent model: only the mutex holder
sits at the check or the construct point (so at most one thread does),
a thread about to construct saw an empty cache that is still empty,
the number of constructions equals one when the cache is populated and
zero before, and a finished thread implies a populated cache. -/
def ConcInv (s : ConcState) : Prop :=
  (∀ i, s.pcs i = TPC.locked ∨ s.pcs i = TPC.willConstruct → s.lock = some i) ∧
  (∀ i, s.pcs i = TPC.willConstruct → s.cache = none) ∧
  (s.heap.length = if s.cache.isSome then 1 else 0) ∧
  (∀ i, s.pcs i = TPC.done → s.cache.isSome = true)

/-! Helper lemmas about the heap and the value cache. -/

theorem Heap.retain_length (h : Heap) (i : Nat) : (h.retain i).length = h.length := by
  unfold Heap.retain
  split
  · exact List.length_set ..
  · rfl

theorem set_concat_length {α : Type} (l : List α) (a b : α) :
    List.set (l ++ [a]) l.length b = l ++ [b] := by
  induction l with
  | nil => rfl
  | cons x xs ih => simp [ih]

theorem get_spoofed_hit (st : SpooferState) (i : Nat) (o : CFObj)
    (hc : st.cache = some i) (ho : st.heap[i]? = some (some o)) :
    get_spoofed_uuid_cfstring st =
      ({ st with heap := List.set st.heap i (some ⟨o.content, o.rc + 1⟩) }, i) := by
  simp only [get_spoofed_uuid_cfstring, hc, Heap.retain, ho]

theorem get_spoofed_miss (st : SpooferState) (hc : st.cache = none) :
    get_spoofed_uuid_cfstring st =
      ({ st with heap := st.heap ++ [some ⟨SPOOFED_UUID_STR, 2⟩],
                 cache := some st.heap.length }, st.heap.length) := by
  simp only [get_spoofed_uuid_cfstring, hc, Heap.alloc, Heap.retain,
    List.getElem?_concat_length, set_concat_length]

theorem get_spoofed_original (st : SpooferState) :
    (get_spoofed_uuid_cfstring st).1.original = st.original := by
  unfold get_spoofed_uuid_cfstring
  cases hc : st.cache <;> rfl

theorem get_spoofed_spec (st : SpooferState) (hinv : CacheInv st) :
    (get_spoofed_uuid_cfstring st).1.cache = some (get_spoofed_uuid_cfstring st).2 ∧
    (∃ o : CFObj,
       ((get_spoofed_uuid_cfstring st).1.heap)[(get_spoofed_uuid_cfstring st).2]? =
         some (some o) ∧ o.content = SPOOFED_UUID_STR) ∧
    CacheInv (get_spoofed_uuid_cfstring st).1 := by
  cases hc : st.cache with
  | some i =>
      obtain ⟨o, ho, hoc⟩ := hinv i hc
      have hlt : i < st.heap.length := by
        rcases List.getElem?_eq_some.mp ho with ⟨h, _⟩
        exact h
      rw [get_spoofed_hit st i o hc ho]
      refine ⟨hc, ⟨⟨o.content, o.rc + 1⟩, ?_, hoc⟩, ?_⟩
      · simpa using List.getElem?_set_eq_of_lt (some ⟨o.content, o.rc + 1⟩) hlt
      · intro j hj
        rw [hc] at hj
        cases hj
        exact ⟨⟨o.content, o.rc + 1⟩,
          by simpa using List.getElem?_set_eq_of_lt (some ⟨o.content, o.rc + 1⟩) hlt, hoc⟩
  | none =>
      rw [get_spoofed_miss st hc]
      refine ⟨rfl, ⟨⟨SPOOFED_UUID_STR, 2⟩, ?_, rfl⟩, ?_⟩
      · exact List.getElem?_concat_length ..
      · intro j hj
        cases hj
        exact ⟨⟨SPOOFED_UUID_STR, 2⟩, List.getElem?_concat_length .., rfl⟩

theorem dispatch_match (origBeh : OrigBeh) (st : SpooferState)
    (entry allocator options : Nat) (k : CFStringV) (s : String)
    (hconv : cfStringGetCString k 256 = some s)
    (hmatch : cStrExtract s = IO_PLATFORM_UUID_KEY_STR) :
    replaced_IORegistryEntryCreateCFProperty origBeh st entry (some k) allocator options =
      some ⟨(get_spoofed_uuid_cfstring st).1,
            CFTypeRefV.handle (get_spoofed_uuid_cfstring st).2, false⟩ := by
  simp only [replaced_IORegistryEntryCreateCFProperty, hconv, hmatch, if_true]

theorem get_spoofed_canon (o : Option Nat) (r : Nat) :
    get_spoofed_uuid_cfstring (canonState o r) = (canonState o (r + 1), 0) := rfl

theorem acquireN_canon (n : Nat) (o : Option Nat) (r : Nat) :
    acquireN n (canonState o r) = (canonState o (r + n), List.replicate n 0) := by
  induction n generalizing r with
  | zero => simp [acquireN]
  | succ n ih =>
      have h1 : r + 1 + n = r + (n + 1) := by omega
      simp [acquireN, get_spoofed_canon, ih, List.replicate_succ, h1]

theorem get_spoofed_initial :
    get_spoofed_uuid_cfstring initialState = (canonState none 2, 0) := rfl

theorem acquireN_initial (n : Nat) :
    acquireN (n + 1) initialState = (canonState none (n + 2), List.replicate (n + 1) 0) := by
  have h1 : 2 + n = n + 2 := by omega
  simp [acquireN, get_spoofed_initial, acquireN_canon, List.replicate_succ, h1]

theorem release_canon (o : Option Nat) (r : Nat) (hr : 2 ≤ r) :
    ({ canonState o r with heap := (canonState o r).heap.release 0 } : SpooferState) =
      canonState o (r - 1) := by
  simp only [canonState, Heap.release, List.getElem?_cons_zero, List.set_cons_zero]
  rw [if_neg (by omega)]

theorem releaseAll_canon (m : Nat) (o : Option Nat) (r : Nat) (hm : m < r) :
    releaseAll (canonState o r) (List.replicate m 0) = canonState o (r - m) := by
  induction m generalizing r with
  | zero => simp [releaseAll]
  | succ m ih =>
      have hr : 2 ≤ r := by omega
      have hm' : m < r - 1 := by omega
      have h2 : r - 1 - m = r - (m + 1) := by omega
      calc releaseAll (canonState o r) (List.replicate (m + 1) 0)
          = releaseAll (canonState o (r - 1)) (List.replicate m 0) := by
            simp [releaseAll, List.replicate_succ]
            rw [show ({ canonState o r with
                  heap := (canonState o r).heap.release 0 } : SpooferState) =
                canonState o (r - 1) from release_canon o r hr]
        _ = canonState o (r - (m + 1)) := by rw [ih (r - 1) hm', h2]

theorem concInit_inv : ConcInv concInit := by
  refine ⟨?_, ?_, ?_, ?_⟩ <;> simp [concInit, ConcInv]

theorem concStep_inv {T : Nat} {s s' : ConcState} (hstep : ConcStep T s s')
    (hinv : ConcInv s) : ConcInv s' := by
  obtain ⟨h1, h2, h3, h4⟩ := hinv
  cases hstep with
  | takeLock i hi hpc hl =>
      refine ⟨?_, ?_, h3, ?_⟩
      · intro j hj
        dsimp only at hj ⊢
        by_cases hji : j = i
        · exact congrArg some hji.symm
        · rw [Function.update_noteq hji] at hj
          rw [h1 j hj] at hl
          exact absurd hl (by simp)
      · intro j hj
        dsimp only at hj ⊢
        by_cases hji : j = i
        · subst hji
          rw [Function.update_same] at hj
          exact absurd hj (by simp)
        · rw [Function.update_noteq hji] at hj
          rw [h1 j (Or.inr hj)] at hl
          exact absurd hl (by simp)
      · intro j hj
        dsimp only at hj ⊢
        by_cases hji : j = i
        · subst hji
          rw [Function.update_same] at hj
          exact absurd hj (by simp)
        · rw [Function.update_noteq hji] at hj
          exact h4 j hj
  | checkHit i j0 hi hpc hc =>
      refine ⟨?_, ?_, ?_, ?_⟩
      · intro j hj
        dsimp only at hj ⊢
        by_cases hji : j = i
        · subst hji
          rw [Function.update_same] at hj
          rcases hj with hj | hj <;> exact absurd hj (by simp)
        · rw [Function.update_noteq hji] at hj
          have hli := h1 i (Or.inl hpc)
          have hlj := h1 j hj
          rw [hli] at hlj
          exact absurd (Option.some.inj hlj) (fun h => hji h.symm)
      · intro j hj
        dsimp only at hj ⊢
        by_cases hji : j = i
        · subst hji
          rw [Function.update_same] at hj
          exact absurd hj (by simp)
        · rw [Function.update_noteq hji] at hj
          exact h2 j hj
      · dsimp only
        rw [Heap.retain_length]
        exact h3
      · intro j hj
        dsimp only
        simp [hc]
  | checkMiss i hi hpc hc =>
      refine ⟨?_, ?_, h3, ?_⟩
      · intro j hj
        dsimp only at hj ⊢
        by_cases hji : j = i
        · rw [hji]
          exact h1 i (Or.inl hpc)
        · rw [Function.update_noteq hji] at hj
          exact h1 j hj
      · intro j hj
        exact hc
      · intro j hj
        dsimp only at hj ⊢
        by_cases hji : j = i
        · subst hji
          rw [Function.update_same] at hj
          exact absurd hj (by simp)
        · rw [Function.update_noteq hji] at hj
          have hdone := h4 j hj
          rw [hc] at hdone
          exact absurd hdone (by simp)
  | construct i hi hpc =>
      have hcnone := h2 i hpc
      have hli := h1 i (Or.inr hpc)
      refine ⟨?_, ?_, ?_, ?_⟩
      · intro j hj
        dsimp only at hj ⊢
        by_cases hji : j = i
        · subst hji
          rw [Function.update_same] at hj
          rcases hj with hj | hj <;> exact absurd hj (by simp)
        · rw [Function.update_noteq hji] at hj
          have hlj := h1 j hj
          rw [hli] at hlj
          exact absurd (Option.some.inj hlj) (fun h => hji h.symm)
      · intro j hj
        dsimp only at hj ⊢
        by_cases hji : j = i
        · subst hji
          rw [Function.update_same] at hj
          exact absurd hj (by simp)
        · rw [Function.update_noteq hji] at hj
          have hlj := h1 j (Or.inr hj)
          rw [hli] at hlj
          exact absurd (Option.some.inj hlj) (fun h => hji h.symm)
      · dsimp only
        rw [hcnone] at h3
        simp only [Option.isSome_none, Bool.false_eq_true, if_false] at h3
        rw [Heap.retain_length]
        simp [Heap.alloc, h3]
      · intro j hj
        rfl

theorem reachable_inv {T : Nat} {s : ConcState}
    (h : Relation.ReflTransGen (ConcStep T) concInit s) : ConcInv s := by
  induction h with
  | refl => exact concInit_inv
  | tail hsteps hstep ih => exact concStep_inv hstep ih

theorem get_spoofed_cache (st : SpooferState) :
    (get_spoofed_uuid_cfstring st).1.cache = some (get_spoofed_uuid_cfstring st).2 := by
  cases hc : st.cache <;> simp [get_spoofed_uuid_cfstring, hc]

theorem get_spoofed_handle_of_cache (st : SpooferState) (i : Nat)
    (hc : st.cache = some i) : (get_spoofed_uuid_cfstring st).2 = i := by
  simp [get_spoofed_uuid_cfstring, hc]

theorem dispatch_delegate (origBeh : OrigBeh) (st : SpooferState)
    (entry allocator options : Nat) (key : Option CFStringV) (p : Nat)
    (harm : st.original = some p)
    (hnm : key = none ∨
      (∃ k, key = some k ∧ cfStringGetCString k 256 = none) ∨
      (∃ k s, key = some k ∧ cfStringGetCString k 256 = some s ∧
        cStrExtract s ≠ IO_PLATFORM_UUID_KEY_STR)) :
    replaced_IORegistryEntryCreateCFProperty origBeh st entry key allocator options =
      some ⟨st, origBeh entry key allocator options, true⟩ := by
  rcases hnm with hnull | ⟨k, hk, hcf⟩ | ⟨k, s, hk, hcf, hne⟩
  · subst hnull
    simp only [replaced_IORegistryEntryCreateCFProperty, harm]
  · subst hk
    simp only [replaced_IORegistryEntryCreateCFProperty, hcf, harm]
  · subst hk
    simp only [replaced_IORegistryEntryCreateCFProperty, hcf]
    rw [if_neg hne]
    simp only [harm]

/-! Claim theorems. -/

/-- Claim C1: for every dispatcher call whose key argument is non-null and
converts to a text form exactly equal to the configured target key
"IOPlatformUUID", the dispatcher does not invoke the captured original
function at all and returns a handle obtained from the value cache whose
text content equals the fixed 36-character spoofed payload. -/
theorem C1_match_returns_spoofed_payload (origBeh : OrigBeh) (st : SpooferState)
    (entry allocator options : Nat) (k : CFStringV) (s : String)
    (hinv : CacheInv st)
    (hconv : cfStringGetCString k 256 = some s)
    (hmatch : cStrExtract s = IO_PLATFORM_UUID_KEY_STR) :
    ∃ res : DispatchResult,
      replaced_IORegistryEntryCreateCFProperty origBeh st entry (some k) allocator options
        = some res ∧
      res.calledOriginal = false ∧
      (∃ i o, res.ret = CFTypeRefV.handle i ∧ res.state.cache = some i ∧
        (res.state.heap)[i]? = some (some o) ∧ o.content = SPOOFED_UUID_STR) ∧
      SPOOFED_UUID_STR.length = 36 := by
  obtain ⟨hcache, ⟨o, ho, hoc⟩, hinv'⟩ := get_spoofed_spec st hinv
  exact ⟨_, dispatch_match origBeh st entry allocator options k s hconv hmatch, rfl,
    ⟨(get_spoofed_uuid_cfstring st).2, o, rfl, hcache, ho, hoc⟩, rfl⟩

theorem C1_witness :
    ∃ res : DispatchResult,
      replaced_IORegistryEntryCreateCFProperty (fun _ _ _ _ => CFTypeRefV.null)
          initialState 3 (some ⟨some "IOPlatformUUID"⟩) 4 5 = some res ∧
      res.calledOriginal = false ∧
      (∃ i o, res.ret = CFTypeRefV.handle i ∧ res.state.cache = some i ∧
        (res.state.heap)[i]? = some (some o) ∧ o.content = SPOOFED_UUID_STR) ∧
      SPOOFED_UUID_STR.length = 36 :=
  C1_match_returns_spoofed_payload (fun _ _ _ _ => CFTypeRefV.null) initialState
    3 4 5 ⟨some "IOPlatformUUID"⟩ "IOPlatformUUID"
    (by intro i h; cases h) rfl rfl

/-- Claim C2: for every dispatcher call whose key is null, or whose key
fails conversion to text, or whose extracted text differs from
"IOPlatformUUID" under the single case-sensitive exact comparison, the
dispatcher invokes the captured original with all four arguments
unmodified and returns its result verbatim, including a null result,
leaving the process state untouched. -/
theorem C2_nonmatch_delegates (origBeh : OrigBeh) (st : SpooferState)
    (entry allocator options : Nat) (key : Option CFStringV) (p : Nat)
    (harm : st.original = some p)
    (hnm : key = none ∨
      (∃ k, key = some k ∧ cfStringGetCString k 256 = none) ∨
      (∃ k s, key = some k ∧ cfStringGetCString k 256 = some s ∧
        cStrExtract s ≠ IO_PLATFORM_UUID_KEY_STR)) :
    replaced_IORegistryEntryCreateCFProperty origBeh st entry key allocator options =
      some ⟨st, origBeh entry key allocator options, true⟩ :=
  dispatch_delegate origBeh st entry allocator options key p harm hnm

theorem C2_witness :
    replaced_IORegistryEntryCreateCFProperty (fun _ _ _ _ => CFTypeRefV.null)
        ⟨[], none, some 1⟩ 3 (some ⟨some "IOPlatformSerialNumber"⟩) 4 5 =
      some ⟨⟨[], none, some 1⟩, CFTypeRefV.null, true⟩ :=
  C2_nonmatch_delegates (fun _ _ _ _ => CFTypeRefV.null) ⟨[], none, some 1⟩
    3 4 5 (some ⟨some "IOPlatformSerialNumber"⟩) 1 rfl
    (Or.inr (Or.inr ⟨⟨some "IOPlatformSerialNumber"⟩, "IOPlatformSerialNumber",
      rfl, rfl, by decide⟩))

/-- Claim C9: on the match path the dispatcher's result does not depend on
the entry handle, the allocator reference or the options bitmask: two
calls whose keys both convert to exactly "IOPlatformUUID" produce the same
outcome whatever those three arguments are, and two successive matching
calls return handles to the same canonical value. -/
theorem C9_match_ignores_other_arguments :
    (∀ (origBeh : OrigBeh) (st : SpooferState) (k : CFStringV) (s : String)
       (e1 a1 o1 e2 a2 o2 : Nat),
       cfStringGetCString k 256 = some s →
       cStrExtract s = IO_PLATFORM_UUID_KEY_STR →
       replaced_IORegistryEntryCreateCFProperty origBeh st e1 (some k) a1 o1 =
         replaced_IORegistryEntryCreateCFProperty origBeh st e2 (some k) a2 o2) ∧
    (∀ (origBeh1 origBeh2 : OrigBeh) (st : SpooferState) (k1 k2 : CFStringV)
       (s1 s2 : String) (e1 a1 o1 e2 a2 o2 : Nat) (res1 res2 : DispatchResult),
       cfStringGetCString k1 256 = some s1 →
       cStrExtract s1 = IO_PLATFORM_UUID_KEY_STR →
       cfStringGetCString k2 256 = some s2 →
       cStrExtract s2 = IO_PLATFORM_UUID_KEY_STR →
       replaced_IORegistryEntryCreateCFProperty origBeh1 st e1 (some k1) a1 o1 =
         some res1 →
       replaced_IORegistryEntryCreateCFProperty origBeh2 res1.state e2 (some k2) a2 o2 =
         some res2 →
       ∃ i, res1.ret = CFTypeRefV.handle i ∧ res2.ret = CFTypeRefV.handle i) := by
  constructor
  · intro origBeh st k s e1 a1 o1 e2 a2 o2 hconv hmatch
    rw [dispatch_match origBeh st e1 a1 o1 k s hconv hmatch,
        dispatch_match origBeh st e2 a2 o2 k s hconv hmatch]
  · intro ob1 ob2 st k1 k2 s1 s2 e1 a1 o1 e2 a2 o2 res1 res2 hc1 hm1 hc2 hm2 hr1 hr2
    rw [dispatch_match ob1 st e1 a1 o1 k1 s1 hc1 hm1] at hr1
    have e1' := Option.some.inj hr1
    cases e1'
    dsimp only at hr2
    rw [dispatch_match ob2 (get_spoofed_uuid_cfstring st).1 e2 a2 o2 k2 s2 hc2 hm2] at hr2
    have e2' := Option.some.inj hr2
    cases e2'
    refine ⟨(get_spoofed_uuid_cfstring st).2, rfl, ?_⟩
    dsimp only
    rw [get_spoofed_handle_of_cache (get_spoofed_uuid_cfstring st).1
      (get_spoofed_uuid_cfstring st).2 (get_spoofed_cache st)]

theorem C9_witness :
    ∃ i, (⟨canonState none 2, CFTypeRefV.handle 0, false⟩ : DispatchResult).ret =
          CFTypeRefV.handle i ∧
        (⟨canonState none 3, CFTypeRefV.handle 0, false⟩ : DispatchResult).ret =
          CFTypeRefV.handle i :=
  C9_match_ignores_other_arguments.2 (fun _ _ _ _ => CFTypeRefV.null)
    (fun _ _ _ _ => CFTypeRefV.external 9) initialState
    ⟨some "IOPlatformUUID"⟩ ⟨some "IOPlatformUUID"⟩ "IOPlatformUUID" "IOPlatformUUID"
    1 2 3 4 5 6
    ⟨canonState none 2, CFTypeRefV.handle 0, false⟩
    ⟨canonState none 3, CFTypeRefV.handle 0, false⟩
    rfl rfl rfl rfl rfl rfl

/-- Claim C10: the dispatcher extracts the key's text into a fixed
256-byte buffer, so every call whose key's UTF-8 text plus terminating
NUL does not fit in 256 bytes fails conversion and is delegated to the
original function with the arguments unmodified. -/
theorem C10_oversized_key_delegates (origBeh : OrigBeh) (st : SpooferState)
    (entry allocator options : Nat) (k : CFStringV) (s : String) (p : Nat)
    (harm : st.original = some p)
    (htext : k.utf8 = some s)
    (hbig : 256 < s.utf8ByteSize + 1) :
    replaced_IORegistryEntryCreateCFProperty origBeh st entry (some k) allocator options =
      some ⟨st, origBeh entry (some k) allocator options, true⟩ := by
  have hcf : cfStringGetCString k 256 = none := by
    simp only [cfStringGetCString, htext]
    rw [if_neg (by omega)]
  exact dispatch_delegate origBeh st entry allocator options (some k) p harm
    (Or.inr (Or.inl ⟨k, rfl, hcf⟩))

theorem C10_witness :
    replaced_IORegistryEntryCreateCFProperty (fun _ _ _ _ => CFTypeRefV.null)
        ⟨[], none, some 1⟩ 3 (some ⟨some (String.mk (List.replicate 300 'a'))⟩) 4 5 =
      some ⟨⟨[], none, some 1⟩, CFTypeRefV.null, true⟩ :=
  C10_oversized_key_delegates (fun _ _ _ _ => CFTypeRefV.null) ⟨[], none, some 1⟩
    3 4 5 ⟨some (String.mk (List.replicate 300 'a'))⟩ (String.mk (List.replicate 300 'a'))
    1 rfl rfl (by decide)

/-- Claim C4: every call to the value cache performs exactly one net
reference-count increment on the canonical value on behalf of the caller
and never decrements the canonical entry's own baseline reference: a
call on a populated cache raises the canonical cell's count by exactly
one, the cache-populating first call leaves it at two (baseline plus
caller), and for every N ≥ 1, acquiring N handles from the fresh process
state and releasing all N of them leaves the canonical entry alive at
its baseline with the same content, retrievable by a later acquire. -/
theorem C4_refcount_discipline :
    (∀ (st : SpooferState) (i : Nat) (o : CFObj),
       st.cache = some i → st.heap[i]? = some (some o) →
       (get_spoofed_uuid_cfstring st).2 = i ∧
       ((get_spoofed_uuid_cfstring st).1.heap)[i]? =
         some (some ⟨o.content, o.rc + 1⟩)) ∧
    (∀ st : SpooferState, st.cache = none →
       ((get_spoofed_uuid_cfstring st).1.heap)[(get_spoofed_uuid_cfstring st).2]? =
         some (some ⟨SPOOFED_UUID_STR, 2⟩)) ∧
    (∀ N : Nat, 1 ≤ N →
       releaseAll (acquireN N initialState).1 (acquireN N initialState).2 =
         canonState none 1 ∧
       (get_spoofed_uuid_cfstring (canonState none 1)).2 = 0 ∧
       ((get_spoofed_uuid_cfstring (canonState none 1)).1.heap)[0]? =
         some (some ⟨SPOOFED_UUID_STR, 2⟩)) := by
  refine ⟨?_, ?_, ?_⟩
  · intro st i o hc ho
    have hlt : i < st.heap.length := by
      rcases List.getElem?_eq_some.mp ho with ⟨h, _⟩
      exact h
    rw [get_spoofed_hit st i o hc ho]
    exact ⟨rfl, by simpa using List.getElem?_set_eq_of_lt (some ⟨o.content, o.rc + 1⟩) hlt⟩
  · intro st hc
    rw [get_spoofed_miss st hc]
    exact List.getElem?_concat_length ..
  · intro N hN
    obtain ⟨n, rfl⟩ : ∃ n, N = n + 1 := ⟨N - 1, by omega⟩
    refine ⟨?_, rfl, rfl⟩
    rw [acquireN_initial n]
    have h1 : n + 2 - (n + 1) = 1 := by omega
    rw [releaseAll_canon (n + 1) none (n + 2) (by omega), h1]

theorem C4_witness :
    releaseAll (acquireN 3 initialState).1 (acquireN 3 initialState).2 =
      canonState none 1 ∧
    (get_spoofed_uuid_cfstring (canonState none 1)).2 = 0 ∧
    ((get_spoofed_uuid_cfstring (canonState none 1)).1.heap)[0]? =
      some (some ⟨SPOOFED_UUID_STR, 2⟩) :=
  C4_refcount_discipline.2.2 3 (by decide)

/-- Claim C5: the canonical spoofed value is constructed at most once per
process: after any N ≥ 1 sequential acquires from the fresh process
state exactly one cell was ever allocated, every returned handle is the
same handle 0, the cache points at it, and its content is the spoofed
payload (with one baseline reference plus the N outstanding caller
references). -/
theorem C5_constructed_once (N : Nat) (hN : 1 ≤ N) :
    (acquireN N initialState).1.heap.length = 1 ∧
    (acquireN N initialState).2 = List.replicate N 0 ∧
    (acquireN N initialState).1.cache = some 0 ∧
    ((acquireN N initialState).1.heap)[0]? = some (some ⟨SPOOFED_UUID_STR, N + 1⟩) := by
  obtain ⟨n, rfl⟩ : ∃ n, N = n + 1 := ⟨N - 1, by omega⟩
  rw [acquireN_initial n]
  exact ⟨rfl, rfl, rfl, by rw [show n + 1 + 1 = n + 2 by omega]; rfl⟩

theorem C5_witness :
    (acquireN 2 initialState).1.heap.length = 1 ∧
    (acquireN 2 initialState).2 = List.replicate 2 0 ∧
    (acquireN 2 initialState).1.cache = some 0 ∧
    ((acquireN 2 initialState).1.heap)[0]? = some (some ⟨SPOOFED_UUID_STR, 3⟩) :=
  C5_constructed_once 2 (by decide)

/-- Claim C6: the existence check and the lazy construction of the
canonical entry run inside one mutual-exclusion critical section, so
when T threads concurrently call the value cache for the first time, at
most one canonical cell is ever allocated in every reachable
interleaving, and exactly one once all T threads have finished,
regardless of T. -/
theorem C6_concurrent_single_construction (T : Nat) (s : ConcState) (hT : 1 ≤ T)
    (hreach : Relation.ReflTransGen (ConcStep T) concInit s) :
    s.heap.length ≤ 1 ∧
    ((∀ i, i < T → s.pcs i = TPC.done) → s.heap.length = 1) := by
  obtain ⟨h1, h2, h3, h4⟩ := reachable_inv hreach
  constructor
  · rw [h3]
    split <;> omega
  · intro hdone
    have hcs := h4 0 (hdone 0 hT)
    rw [h3, hcs]
    rfl

theorem C6_witness :
    (⟨none, some 0, [some ⟨SPOOFED_UUID_STR, 2⟩],
      Function.update (Function.update (Function.update
        (fun _ => TPC.start) 0 TPC.locked) 0 TPC.willConstruct) 0 TPC.done⟩ :
      ConcState).heap.length = 1 := by
  refine (C6_concurrent_single_construction 1 _ (by decide) ?_).2 ?_
  · exact Relation.ReflTransGen.tail (Relation.ReflTransGen.tail
      (Relation.ReflTransGen.tail Relation.ReflTransGen.refl
        (ConcStep.takeLock concInit 0 (by decide) rfl rfl))
      (ConcStep.checkMiss _ 0 (by decide) rfl rfl))
      (ConcStep.construct _ 0 (by decide) rfl)
  · intro i hi
    have hi0 : i = 0 := by omega
    rw [hi0]
    rfl

/-- Claim C7: the load-time constructor issues exactly one rebinding
request, for the exact symbol name "IORegistryEntryCreateCFProperty"
with the dispatcher as replacement; on a successful rebind supplying a
non-null original address it stores that address in the process-wide
captured-original state; and no dispatcher invocation ever modifies the
captured original address afterwards. -/
theorem C7_init_rebinds_once (r : RebindOutcome) :
    (init r).calls =
      [("IORegistryEntryCreateCFProperty", "replaced_IORegistryEntryCreateCFProperty")] ∧
    (∀ p, r.code = 0 → r.replaced = some p → (init r).original = some p) ∧
    (∀ (origBeh : OrigBeh) (st : SpooferState) (entry : Nat) (key : Option CFStringV)
       (allocator options : Nat) (res : DispatchResult),
       replaced_IORegistryEntryCreateCFProperty origBeh st entry key allocator options =
         some res →
       res.state.original = st.original) := by
  refine ⟨?_, ?_, ?_⟩
  · simp only [init]
    split
    · split <;> rfl
    · rfl
  · intro p hc hrep
    simp only [init, if_pos hc, hrep]
  · intro origBeh st entry key allocator options res h
    cases key with
    | none =>
        simp only [replaced_IORegistryEntryCreateCFProperty] at h
        split at h
        · cases h
        · cases Option.some.inj h
          rfl
    | some k =>
        simp only [replaced_IORegistryEntryCreateCFProperty] at h
        split at h
        · split at h
          · cases Option.some.inj h
            exact get_spoofed_original st
          · split at h
            · cases h
            · cases Option.some.inj h
              rfl
        · split at h
          · cases h
          · cases Option.some.inj h
            rfl

theorem C7_witness :
    (init ⟨0, some 7⟩).calls =
      [("IORegistryEntryCreateCFProperty", "replaced_IORegistryEntryCreateCFProperty")] ∧
    (init ⟨0, some 7⟩).original = some 7 ∧
    (⟨canonState none 2, CFTypeRefV.handle 0, false⟩ : DispatchResult).state.original =
      initialState.original :=
  ⟨(C7_init_rebinds_once ⟨0, some 7⟩).1,
   (C7_init_rebinds_once ⟨0, some 7⟩).2.1 7 rfl rfl,
   (C7_init_rebinds_once ⟨0, some 7⟩).2.2 (fun _ _ _ _ => CFTypeRefV.null) initialState 1
     (some ⟨some "IOPlatformUUID"⟩) 2 3
     ⟨canonState none 2, CFTypeRefV.handle 0, false⟩ rfl⟩

/-- Claim C8 counterexample: on a fully successful install (zero return
code with a non-null original pointer) the constructor emits no
diagnostic line at all, so the claim that exactly one line is emitted on
install success as well as on install failure is false. -/
theorem C8_counterexample :
    ¬ (init ⟨0, some 1⟩).diagnostics.length = 1 ∧
    (init ⟨0, some 1⟩).diagnostics = [] :=
  ⟨by decide, rfl⟩

/-- Claim C8, amended: on the two install-failure paths (non-zero rebind
return code, or zero return code without an original pointer) the
constructor emits exactly one diagnostic line; on full install success
it emits none. -/
theorem C8_failure_diagnostics (r : RebindOutcome) :
    ((r.code ≠ 0 ∨ r.replaced = none) → (init r).diagnostics.length = 1) ∧
    (∀ p, r.code = 0 → r.replaced = some p → (init r).diagnostics = []) := by
  constructor
  · intro hf
    by_cases hc : r.code = 0
    · rcases hf with hf | hrep
      · exact absurd hc hf
      · simp only [init, if_pos hc, hrep]
        rfl
    · simp only [init, if_neg hc]
      rfl
  · intro p hc hrep
    simp only [init, if_pos hc, hrep]

theorem C8_witness :
    (init ⟨1, none⟩).diagnostics.length = 1 ∧ (init ⟨0, some 2⟩).diagnostics = [] :=
  ⟨(C8_failure_diagnostics ⟨1, none⟩).1 (Or.inl (by decide)),
   (C8_failure_diagnostics ⟨0, some 2⟩).2 2 rfl rfl⟩

/-- Claim C3: if the install step fails — the rebinding primitive reports
failure, or reports success without supplying an original pointer — the
process-wide captured-original state stays empty (non-armed), the symbol
is not patched, and every subsequent process-wide call to the target
symbol still succeeds with the original behaviour: no call ever reaches
the dispatcher's unwrap of the absent original pointer, so no crash. -/
theorem C3_fail_open (r : RebindOutcome)
    (hfail : r.code ≠ 0 ∨ r.replaced = none) :
    (init r).original = none ∧
    (stateAfterInit r).original = none ∧
    rebindPatched r = false ∧
    (∀ (origBeh : OrigBeh) (st : SpooferState) (entry : Nat) (key : Option CFStringV)
       (allocator options : Nat),
       processCall r origBeh st entry key allocator options =
         some ⟨st, origBeh entry key allocator options, true⟩) := by
  have hpatch : rebindPatched r = false := by
    rcases hfail with hc | hrep
    · simp [rebindPatched, hc]
    · simp [rebindPatched, hrep]
  have horig : (init r).original = none := by
    by_cases hc : r.code = 0
    · rcases hfail with hf | hrep
      · exact absurd hc hf
      · simp only [init, if_pos hc, hrep]
    · simp only [init, if_neg hc]
  refine ⟨horig, ?_, hpatch, ?_⟩
  · simp only [stateAfterInit, horig]
  · intro origBeh st entry key allocator options
    simp only [processCall, hpatch]
    rfl

theorem C3_witness :
    (init ⟨0, none⟩).original = none ∧
    processCall ⟨0, none⟩ (fun _ _ _ _ => CFTypeRefV.null) initialState 1 none 2 3 =
      some ⟨initialState, CFTypeRefV.null, true⟩ :=
  ⟨(C3_fail_open ⟨0, none⟩ (Or.inr rfl)).1,
   (C3_fail_open ⟨0, none⟩ (Or.inr rfl)).2.2.2 (fun _ _ _ _ => CFTypeRefV.null)
     initialState 1 none 2 3⟩

end UuidSpoof
